import Mathlib

/-!
Verification of the Modbus simulator core: the dynamic register data block
(ModbusContext.py), the register facade (SimpleModbusContext), the typed
register codec and its callers (main.py), and the server lifecycle
(SalveHandler.py), shallowly embedded in Lean.

Python integers are modelled as Int (cell values, addresses) or Nat (counts,
sizes).  Fallible operations (those that raise in Python) return Option.
-/

set_option maxHeartbeats 1000000

namespace ModbusSim

/-! ## DynamicDataBlock (ModbusContext.py, lines 19-60)

State: `address` is the base address, `values` the backing cell list.
Python list mutation is modelled by returning a new block. -/

structure DynamicDataBlock where
  address : Int
  values  : List Int
deriving DecidableEq, Repr

namespace DynamicDataBlock

/-- Source: validate allows any address at or above the base address. -/
def validate (b : DynamicDataBlock) (addr : Int) (_count : Nat := 1) : Bool :=
  !(addr < b.address)

/-- Source: getValues computes start = address - base, raises IndexError when
start is negative, slices when the request fits, otherwise pads the tail with
zeros so the result always has length count. -/
def getValues (b : DynamicDataBlock) (addr : Int) (count : Nat := 1) :
    Option (List Int) :=
  let start := addr - b.address
  if start < 0 then none
  else
    let s := start.toNat
    if s + count ≤ b.values.length then
      some ((b.values.drop s).take count)
    else
      let vals := if s < b.values.length then b.values.drop s else []
      some (vals ++ List.replicate (count - vals.length) 0)

/-- State-passing variant of getValues, recording the mutation footprint of
the Python method: every statement reads the block or mutates the local copy
vals, so the block handed back is the input block unchanged. -/
def getValuesSt (b : DynamicDataBlock) (addr : Int) (count : Nat := 1) :
    Option (List Int × DynamicDataBlock) :=
  (b.getValues addr count).map (fun r => (r, b))

/-- Helper for setValues: the Python loop
for i, v in enumerate(values): self.values[start + i] = int(v). -/
def overwriteFrom (l : List Int) (s : Nat) : List Int → List Int
  | [] => l
  | v :: rest => overwriteFrom (l.set s v) (s + 1) rest

/-- Source: setValues computes start = address - base, raises IndexError when
start is negative, grows the backing list with zeros when the write extends
past the current extent, then overwrites the target cells in place. -/
def setValues (b : DynamicDataBlock) (addr : Int) (vs : List Int) :
    Option DynamicDataBlock :=
  let start := addr - b.address
  if start < 0 then none
  else
    let s := start.toNat
    let grown :=
      if b.values.length < s + vs.length then
        b.values ++ List.replicate (s + vs.length - b.values.length) 0
      else b.values
    some ⟨b.address, overwriteFrom grown s vs⟩

end DynamicDataBlock

/-! ## SimpleModbusContext (ModbusContext.py, lines 66-106)

Four dynamic blocks, one per register class.  The external pymodbus
ModbusSlaveContext dispatch is modelled from the spec (section 4.3 narrow
register-access interface): function codes 1,2,3,4 map to the co, di, hr, ir
blocks, zero-mode so addresses pass through unchanged. -/

structure SimpleModbusContext where
  di : DynamicDataBlock
  co : DynamicDataBlock
  hr : DynamicDataBlock
  ir : DynamicDataBlock
deriving DecidableEq, Repr

namespace SimpleModbusContext

/-- Source: fx_map = \x7b co:1, di:2, hr:3, ir:4 \x7d with .get returning none
for any other table tag. -/
def fx_map (table : String) : Option Nat :=
  if table = "co" then some 1
  else if table = "di" then some 2
  else if table = "hr" then some 3
  else if table = "ir" then some 4
  else none

/-- Modelled from the spec: the external protocol library routes function
code 1 to the coil block, 2 to discrete inputs, 3 to holding registers and
4 to input registers (zero-mode addressing, address unchanged). -/
def blockOfFx (ctx : SimpleModbusContext) (fx : Nat) : DynamicDataBlock :=
  if fx = 1 then ctx.co
  else if fx = 2 then ctx.di
  else if fx = 3 then ctx.hr
  else ctx.ir

/-- Replace the block selected by a function code. -/
def updBlockOfFx (ctx : SimpleModbusContext) (fx : Nat)
    (b : DynamicDataBlock) : SimpleModbusContext :=
  if fx = 1 then { ctx with co := b }
  else if fx = 2 then { ctx with di := b }
  else if fx = 3 then { ctx with hr := b }
  else { ctx with ir := b }

/-- Source: set looks the table tag up in fx_map, raises KeyError when
absent, then stores the single-element list [int(value)]; store errors
propagate (the except clause re-raises). -/
def set (ctx : SimpleModbusContext) (table : String) (addr : Int)
    (value : Int) : Option SimpleModbusContext :=
  match fx_map table with
  | none => none
  | some fx =>
      ((ctx.blockOfFx fx).setValues addr [value]).map (ctx.updBlockOfFx fx)

/-- Source: get looks the table tag up in fx_map, raises KeyError when
absent, reads one cell, and returns r[0] if r else None; store errors
propagate.  The outer none is a raised exception, the inner Option is the
Python return value. -/
def get (ctx : SimpleModbusContext) (table : String) (addr : Int) :
    Option (Option Int) :=
  match fx_map table with
  | none => none
  | some fx =>
      ((ctx.blockOfFx fx).getValues addr 1).map (fun r => r.head?)

/-- The block a (valid) table tag denotes. -/
def blockFor (ctx : SimpleModbusContext) (table : String) : DynamicDataBlock :=
  if table = "co" then ctx.co
  else if table = "di" then ctx.di
  else if table = "hr" then ctx.hr
  else ctx.ir

end SimpleModbusContext

/-- A context whose four blocks are empty with base 0 (a never-written
store; the source constructor additionally prefills 1000 zero cells, which
reads back identically). -/
def ctxEmpty : SimpleModbusContext :=
  ⟨⟨0, []⟩, ⟨0, []⟩, ⟨0, []⟩, ⟨0, []⟩⟩

/-- The four register-class tags the facade recognizes. -/
def validTable (t : String) : Prop :=
  t = "co" ∨ t = "di" ∨ t = "hr" ∨ t = "ir"

/-- Replace the block a (valid) table tag denotes. -/
def SimpleModbusContext.updFor (ctx : SimpleModbusContext) (t : String)
    (b : DynamicDataBlock) : SimpleModbusContext :=
  if t = "co" then { ctx with co := b }
  else if t = "di" then { ctx with di := b }
  else if t = "hr" then { ctx with hr := b }
  else { ctx with ir := b }

/-! ## Word codec (TypeConversions)

The converter module Converstion.py is referenced by main.py but is not part
of the sources under verification, so its operations are modelled from the
spec (section 4.1 WordCodec): the fixed-width binary representation of the
value (two complement for signed integers, the IEEE-754 bit pattern for
float32 and double64) is split into 16-bit words, most-significant word
first when inverse is true (word order big), least-significant word first
otherwise; strings pack two characters per word, first character in the
high byte, and word order little swaps the two bytes within each word. -/

/-- Modelled from the spec: split a nonnegative value into n 16-bit words,
most-significant word first. -/
def splitWords (v : Nat) (n : Nat) : List Int :=
  List.ofFn (fun i : Fin n => ((v / 65536 ^ (n - 1 - i.val) % 65536 : Nat) : Int))

/-- Modelled from the spec: recombine 16-bit words, most-significant word
first, into a nonnegative value. -/
def combineWords (ws : List Int) : Nat :=
  ws.foldl (fun acc w => acc * 65536 + w.toNat) 0

/-- Modelled from the spec: a uint32 value becomes two words, word order big
(inverse) putting the most-significant word first. -/
def from_uint32 (v : Int) (inverse : Bool) : List Int :=
  let w := splitWords v.toNat 2
  if inverse then w else w.reverse

/-- Modelled from the spec: inverse of from_uint32 on the two words starting
at offset. -/
def to_uint32 (ws : List Int) (offset : Nat) (inverse : Bool) : Int :=
  let sel := (ws.drop offset).take 2
  ((combineWords (if inverse then sel else sel.reverse) : Nat) : Int)

/-- Modelled from the spec: an int32 value is encoded through its 32-bit
two-complement pattern. -/
def from_int32 (v : Int) (inverse : Bool) : List Int :=
  from_uint32 (v % 4294967296) inverse

/-- Modelled from the spec: inverse of from_int32; patterns at or above
2 to the 31 denote negative values. -/
def to_int32 (ws : List Int) (offset : Nat) (inverse : Bool) : Int :=
  let u := to_uint32 ws offset inverse
  if 2147483648 ≤ u then u - 4294967296 else u

/-- Modelled from the spec: a finite IEEE-754 float32 is identified with its
32-bit pattern, split exactly like a uint32. -/
def from_float32 (bits : Nat) (inverse : Bool) : List Int :=
  from_uint32 ((bits : Nat) : Int) inverse

/-- Modelled from the spec: inverse of from_float32, yielding the 32-bit
pattern. -/
def to_float32 (ws : List Int) (offset : Nat) (inverse : Bool) : Nat :=
  (to_uint32 ws offset inverse).toNat

/-- Modelled from the spec: a uint64 value becomes four words. -/
def from_ulong64 (v : Int) (inverse : Bool) : List Int :=
  let w := splitWords v.toNat 4
  if inverse then w else w.reverse

/-- Modelled from the spec: inverse of from_ulong64 on the four words
starting at offset. -/
def to_ulong64 (ws : List Int) (offset : Nat) (inverse : Bool) : Int :=
  let sel := (ws.drop offset).take 4
  ((combineWords (if inverse then sel else sel.reverse) : Nat) : Int)

/-- Modelled from the spec: an int64 value is encoded through its 64-bit
two-complement pattern. -/
def from_long64 (v : Int) (inverse : Bool) : List Int :=
  from_ulong64 (v % 18446744073709551616) inverse

/-- Modelled from the spec: inverse of from_long64. -/
def to_long64 (ws : List Int) (offset : Nat) (inverse : Bool) : Int :=
  let u := to_ulong64 ws offset inverse
  if 9223372036854775808 ≤ u then u - 18446744073709551616 else u

/-- Modelled from the spec: a finite IEEE-754 double64 is identified with
its 64-bit pattern, split exactly like a uint64. -/
def from_double64 (bits : Nat) (inverse : Bool) : List Int :=
  from_ulong64 ((bits : Nat) : Int) inverse

/-- Modelled from the spec: inverse of from_double64. -/
def to_double64 (ws : List Int) (offset : Nat) (inverse : Bool) : Nat :=
  (to_ulong64 ws offset inverse).toNat

/-- Modelled from the spec: pack a byte sequence two bytes per word, first
byte in the high byte when inverse (word order big), the two bytes swapped
within the word otherwise; an odd tail is padded with a zero byte. -/
def from_string (bs : List Nat) (inverse : Bool) : List Int :=
  match bs with
  | [] => []
  | [a] =>
      [((if inverse then a * 256 else a : Nat) : Int)]
  | a :: b :: rest =>
      ((if inverse then a * 256 + b else b * 256 + a : Nat) : Int)
        :: from_string rest inverse

/-- Modelled from the spec: unpack each word into its two bytes, high byte
first when inverse. -/
def to_string (ws : List Int) (inverse : Bool) : List Nat :=
  (ws.map (fun w =>
    let hi := (w.toNat / 256) % 256
    let lo := w.toNat % 256
    if inverse then [hi, lo] else [lo, hi])).flatten

/-! ## Register values and the typed read/write paths (main.py)

A register value as the GUI layer handles it: Python ints for the integer
types, floats carried as their IEEE bit patterns, strings as byte lists. -/

inductive RegValue where
  | int (i : Int)
  | float32 (bits : Nat)
  | double64 (bits : Nat)
  | str (bytes : List Nat)
deriving DecidableEq, Repr

/-- The coercion int(value) applied by the source before encoding; values of
a non-integer shape are not exercised by the claims, and a failing coercion
raises ValueError inside the try block, which the source catches, leaving
the context unchanged. -/
def RegValue.asInt? : RegValue → Option Int
  | .int i => some i
  | _ => none

/-- The register description handed around by main.py: the dict fields the
read, write and overlap-check paths consult. -/
structure Register where
  address : Int
  table : String
  data_type : String
  endian : String
  string_length : Nat
deriving DecidableEq, Repr

/-- Source (main.py 337-343): number of registers needed for a data type;
the dict lookup defaults to 1 for any type not listed, including string and
bool. -/
def get_register_size (dt : String) : Nat :=
  if dt = "uint16" then 1
  else if dt = "int32" then 2
  else if dt = "uint32" then 2
  else if dt = "float32" then 2
  else if dt = "int64" then 4
  else if dt = "uint64" then 4
  else if dt = "double64" then 4
  else 1

/-- Source: the word-writing loop shared by the multi-word branches of
write_register_value: for i, w in enumerate(words): rt.set_register(table,
addr + i, w).  A raising set aborts the loop; the surrounding except clause
swallows the error, so the context written so far is kept. -/
def writeWords (ctx : SimpleModbusContext) (table : String) :
    Int → List Int → SimpleModbusContext
  | _, [] => ctx
  | a, w :: ws =>
      match ctx.set table a w with
      | none => ctx
      | some ctx1 => writeWords ctx1 table (a + 1) ws

/-- Source (main.py 345-385): dispatch on data_type, encode, and write the
words at consecutive addresses.  There is no branch for bool (or any other
unlisted type), so such writes do nothing; all errors are caught and
swallowed. -/
def write_register_value (ctx : SimpleModbusContext) (reg : Register)
    (value : RegValue) : SimpleModbusContext :=
  let table := reg.table
  let addr := reg.address
  let inverse := reg.endian = "big"
  if reg.data_type = "uint16" then
    match value.asInt? with
    | none => ctx
    | some i => (ctx.set table addr i).getD ctx
  else if reg.data_type = "int32" then
    match value.asInt? with
    | none => ctx
    | some i => writeWords ctx table addr (from_int32 i inverse)
  else if reg.data_type = "uint32" then
    match value.asInt? with
    | none => ctx
    | some i => writeWords ctx table addr (from_uint32 i inverse)
  else if reg.data_type = "float32" then
    match value with
    | .float32 bits => writeWords ctx table addr (from_float32 bits inverse)
    | _ => ctx
  else if reg.data_type = "int64" then
    match value.asInt? with
    | none => ctx
    | some i => writeWords ctx table addr (from_long64 i inverse)
  else if reg.data_type = "uint64" then
    match value.asInt? with
    | none => ctx
    | some i => writeWords ctx table addr (from_ulong64 i inverse)
  else if reg.data_type = "double64" then
    match value with
    | .double64 bits => writeWords ctx table addr (from_double64 bits inverse)
    | _ => ctx
  else if reg.data_type = "string" then
    match value with
    | .str bs => writeWords ctx table addr (from_string bs inverse)
    | _ => ctx
  else
    ctx

/-- Source: the word-reading loop of read_register_value: w =
rt.get_register(table, addr + i); if w is None: return None.  A raised
error is caught by the surrounding except clause, which also returns
None. -/
def readWords (ctx : SimpleModbusContext) (table : String) :
    Int → Nat → Option (List Int)
  | _, 0 => some []
  | a, n + 1 =>
      match ctx.get table a with
      | some (some w) => (readWords ctx table (a + 1) n).map (w :: ·)
      | _ => none

/-- Source (main.py 387-423): uint16 reads a single cell; every other type
reads get_register_size words and decodes via the branch for its type; a
type with no decode branch (bool in particular) falls off the chain and the
function returns None. -/
def read_register_value (ctx : SimpleModbusContext) (reg : Register) :
    Option RegValue :=
  let inverse := reg.endian = "big"
  if reg.data_type = "uint16" then
    match ctx.get reg.table reg.address with
    | some (some w) => some (.int w)
    | _ => none
  else
    let size := get_register_size reg.data_type
    match readWords ctx reg.table reg.address size with
    | none => none
    | some words =>
        if reg.data_type = "int32" then some (.int (to_int32 words 0 inverse))
        else if reg.data_type = "uint32" then
          some (.int (to_uint32 words 0 inverse))
        else if reg.data_type = "float32" then
          some (.float32 (to_float32 words 0 inverse))
        else if reg.data_type = "int64" then
          some (.int (to_long64 words 0 inverse))
        else if reg.data_type = "uint64" then
          some (.int (to_ulong64 words 0 inverse))
        else if reg.data_type = "double64" then
          some (.double64 (to_double64 words 0 inverse))
        else if reg.data_type = "string" then
          some (.str (to_string words inverse))
        else none

/-! ## Register overlap check (main.py add_register_dialog, lines 477-511) -/

/-- Source: membership of an address in range(base, base + size). -/
def inAddrRange (x base : Int) (size : Nat) : Bool :=
  base ≤ x && x < base + (size : Int)

/-- Source: the overlap test of add_register_dialog: some already-configured
register of the same table whose range(address, address + size) meets
range(new.address, new.address + new_size), sizes taken from
get_register_size. -/
def overlapsExisting (regs : List Register) (r : Register) : Bool :=
  regs.any fun reg =>
    reg.table == r.table &&
    (List.range (get_register_size r.data_type)).any fun i =>
      inAddrRange (r.address + (i : Int)) reg.address
        (get_register_size reg.data_type)

/-- Source: the register-list effect of add_register_dialog: a rejected
register leaves the list unchanged, an accepted one is appended. -/
def add_register (regs : List Register) (r : Register) : List Register :=
  if overlapsExisting regs r then regs else regs ++ [r]

/-- Modelled from the spec (section 3): the word-count function as the spec
states it, including string taking stringLength words; used only to compare
the claimed overlap rule with the source overlap check. -/
def sizeSpec (dt : String) (stringLength : Nat) : Nat :=
  if dt = "uint16" then 1
  else if dt = "bool" then 1
  else if dt = "int32" then 2
  else if dt = "uint32" then 2
  else if dt = "float32" then 2
  else if dt = "int64" then 4
  else if dt = "uint64" then 4
  else if dt = "double64" then 4
  else if dt = "string" then stringLength
  else 1

/-- The representable values of each data type as the round-trip claim
documents them: uint16 in 0..65535, int32 the full signed 32-bit range, and
so on; float32 and double64 are finite IEEE values identified with their
bit patterns; a string value is the byte content of the one-word window the
read path actually covers (two characters, stringLength 1). -/
def Representable (dt : String) (v : RegValue) : Prop :=
  (dt = "uint16" ∧ ∃ i, v = RegValue.int i ∧ 0 ≤ i ∧ i < 65536) ∨
  (dt = "int32" ∧ ∃ i, v = RegValue.int i ∧
    -2147483648 ≤ i ∧ i < 2147483648) ∨
  (dt = "uint32" ∧ ∃ i, v = RegValue.int i ∧ 0 ≤ i ∧ i < 4294967296) ∨
  (dt = "float32" ∧ ∃ b, v = RegValue.float32 b ∧ b < 4294967296) ∨
  (dt = "int64" ∧ ∃ i, v = RegValue.int i ∧
    -9223372036854775808 ≤ i ∧ i < 9223372036854775808) ∨
  (dt = "uint64" ∧ ∃ i, v = RegValue.int i ∧
    0 ≤ i ∧ i < 18446744073709551616) ∨
  (dt = "double64" ∧ ∃ b, v = RegValue.double64 b ∧
    b < 18446744073709551616) ∨
  (dt = "string" ∧ ∃ x y, v = RegValue.str [x, y] ∧ x < 256 ∧ y < 256)

/-! ## Server lifecycle (SalveHandler.py SlaveRuntime, lines 12-58)

The runtime state carries the fields of SlaveRuntime that stop and start
touch: the _running flag, the two events, whether the worker thread is
alive, and the log of status_changed emissions (the one-way status
channel).  Thread scheduling and real-time waits cannot be embedded; the
single free outcome, whether the worker exits within the bounded waits, is
an explicit boolean input, and each step of stop is recorded as an action
so that the reported warnings and the settle delay are visible. -/

structure SlaveRuntime where
  running : Bool
  stopEventSet : Bool
  shutdownCompleteSet : Bool
  threadAlive : Bool
  status : List String
deriving DecidableEq, Repr

/-- A fresh runtime: no thread, nothing emitted, all flags clear. -/
def SlaveRuntime.init : SlaveRuntime :=
  ⟨false, false, false, false, []⟩

/-- One observable step of SlaveRuntime.stop, in source order. -/
inductive StopAction where
  | setRunningFalse
  | setStopEvent
  | serverStopCall
  | shutdownWaitOk
  | warnShutdownTimeout
  | joinWait
  | warnThreadAlive
  | settleSleep
  | emitStatus (s : String)
deriving DecidableEq, Repr

namespace SlaveRuntime

/-- Source (lines 28-36): start returns at once when _running is already
set; otherwise it sets _running, clears both events, spawns the worker
thread and emits the starting status. -/
def start (rt : SlaveRuntime) : SlaveRuntime :=
  if rt.running then rt
  else
    { rt with
      running := true
      stopEventSet := false
      shutdownCompleteSet := false
      threadAlive := true
      status := rt.status ++ ["starting"] }

/-- Source (lines 38-58): stop clears _running, sets the stop event, calls
ServerStop (an external protocol-library signal with no effect on the
runtime fields), waits up to 0.1 s for the shutdown event and warns on
timeout, joins a live worker thread for up to 0.1 s and warns if it is
still alive, sleeps 0.1 s to let the port settle, and emits the stopped
status.  workerExits says whether the worker wound down within the bounded
waits; either way stop runs to completion. -/
def stop (rt : SlaveRuntime) (workerExits : Bool) :
    SlaveRuntime × List StopAction :=
  let rt1 : SlaveRuntime := { rt with running := false, stopEventSet := true }
  let acts1 : List StopAction :=
    [.setRunningFalse, .setStopEvent, .serverStopCall]
  let acts2 : List StopAction :=
    if workerExits then [.shutdownWaitOk] else [.warnShutdownTimeout]
  let aliveStill := rt.threadAlive && !workerExits
  let acts3 : List StopAction :=
    if aliveStill then [.joinWait, .warnThreadAlive] else []
  let rt2 : SlaveRuntime :=
    { rt1 with
      threadAlive := aliveStill
      shutdownCompleteSet := rt.shutdownCompleteSet || workerExits
      status := rt1.status ++ ["stopped"] }
  (rt2, acts1 ++ acts2 ++ acts3 ++ [.settleSleep, .emitStatus "stopped"])

end SlaveRuntime

/-! ## Lemmas: list helpers -/

theorem getD_replicate_zero (n i : Nat) :
    (List.replicate n (0 : Int)).getD i 0 = 0 := by
  rcases Nat.lt_or_ge i n with h | h
  · rw [List.getD_eq_getElem _ _ (by simpa using h)]
    simp
  · rw [List.getD_eq_default _ _ (by simpa using h)]

theorem getD_set_eq (l : List Int) (s : Nat) (v : Int) (h : s < l.length) :
    (l.set s v).getD s 0 = v := by
  rw [List.getD_eq_getElem _ _ (by simpa using h)]
  simp

theorem getD_set_ne (l : List Int) (s i : Nat) (v : Int) (h : s ≠ i) :
    (l.set s v).getD i 0 = l.getD i 0 := by
  rcases Nat.lt_or_ge i l.length with hi | hi
  · rw [List.getD_eq_getElem _ _ (by simpa using hi),
      List.getD_eq_getElem _ _ hi, List.getElem_set_ne h]
  · rw [List.getD_eq_default _ _ (by simpa using hi),
      List.getD_eq_default _ _ hi]

/-! ## Lemmas: DynamicDataBlock -/

namespace DynamicDataBlock

theorem length_overwriteFrom (vs : List Int) (l : List Int) (s : Nat) :
    (overwriteFrom l s vs).length = l.length := by
  induction vs generalizing l s with
  | nil => rfl
  | cons v rest ih =>
      rw [overwriteFrom, ih (l.set s v) (s + 1), List.length_set]

theorem getD_overwriteFrom (vs : List Int) (l : List Int) (s : Nat)
    (hlen : s + vs.length ≤ l.length) (i : Nat) :
    (overwriteFrom l s vs).getD i 0 =
      if s ≤ i ∧ i < s + vs.length then vs.getD (i - s) 0 else l.getD i 0 := by
  induction vs generalizing l s with
  | nil =>
      rw [overwriteFrom, if_neg (by simp only [List.length_nil]; omega)]
  | cons v rest ih =>
      simp only [List.length_cons] at hlen
      have hsl : s < l.length := by omega
      have hlen' : s + 1 + rest.length ≤ (l.set s v).length := by
        rw [List.length_set]; omega
      rw [overwriteFrom, ih (l.set s v) (s + 1) hlen']
      by_cases hc : s + 1 ≤ i ∧ i < s + 1 + rest.length
      · rw [if_pos hc,
          if_pos (by simp only [List.length_cons]; omega)]
        have h2 : i - s = (i - (s + 1)) + 1 := by omega
        rw [h2, List.getD_cons_succ]
      · rw [if_neg hc]
        by_cases hi : i = s
        · subst hi
          rw [getD_set_eq _ _ _ hsl,
            if_pos (by simp only [List.length_cons]; omega)]
          simp
        · rw [getD_set_ne _ _ _ _ (fun h => hi h.symm),
            if_neg (by simp only [List.length_cons]; omega)]

/-- The grown backing list of setValues reads back cell-for-cell like the
original (the pad is zeros, and absent cells read as zero). -/
theorem getD_grow (l : List Int) (n i : Nat) :
    (if l.length < n then l ++ List.replicate (n - l.length) 0 else l).getD i 0
      = l.getD i 0 := by
  split
  · rcases Nat.lt_or_ge i l.length with hi | hi
    · rw [List.getD_append _ _ _ _ hi]
    · rw [List.getD_append_right _ _ _ _ hi, getD_replicate_zero,
        List.getD_eq_default _ _ hi]
  · rfl

theorem length_grow (l : List Int) (n : Nat) :
    (if l.length < n then l ++ List.replicate (n - l.length) 0 else l).length
      = max l.length n := by
  split <;> simp <;> omega

/-- Failing reads: any address below the base raises. -/
theorem getValues_below_base (b : DynamicDataBlock) (a : Int) (count : Nat)
    (h : a < b.address) : b.getValues a count = none := by
  simp only [getValues]
  rw [if_pos (by omega)]

/-- Failing writes: any address below the base raises. -/
theorem setValues_below_base (b : DynamicDataBlock) (a : Int) (vs : List Int)
    (h : a < b.address) : b.setValues a vs = none := by
  simp only [setValues]
  rw [if_pos (by omega)]

/-- Successful reads: at or above the base, getValues returns a list of
exactly count cells, each the stored value or zero when past the extent. -/
theorem getValues_spec (b : DynamicDataBlock) (a : Int) (count : Nat)
    (h : b.address ≤ a) :
    ∃ r, b.getValues a count = some r ∧ r.length = count ∧
      ∀ i : Nat, i < count →
        r.getD i 0 = b.values.getD ((a - b.address).toNat + i) 0 := by
  simp only [getValues]
  rw [if_neg (by omega)]
  set s := (a - b.address).toNat with hs
  by_cases hc : s + count ≤ b.values.length
  · rw [if_pos hc]
    refine ⟨_, rfl, ?_, ?_⟩
    · simp only [List.length_take, List.length_drop]
      omega
    · intro i hi
      have h1 : i < ((b.values.drop s).take count).length := by
        simp only [List.length_take, List.length_drop]; omega
      rw [List.getD_eq_getElem _ _ h1, List.getD_eq_getElem _ _ (by omega)]
      simp
  · rw [if_neg hc]
    by_cases hsl : s < b.values.length
    · rw [if_pos hsl]
      refine ⟨_, rfl, ?_, ?_⟩
      · simp only [List.length_append, List.length_replicate, List.length_drop]
        omega
      · intro i hi
        rcases Nat.lt_or_ge i (b.values.length - s) with h2 | h2
        · rw [List.getD_append _ _ _ _ (by simpa using h2)]
          have h3 : i < (b.values.drop s).length := by simpa using h2
          rw [List.getD_eq_getElem _ _ h3, List.getD_eq_getElem _ _ (by omega)]
          simp
        · rw [List.getD_append_right _ _ _ _ (by simpa using h2),
            getD_replicate_zero, List.getD_eq_default _ _ (by omega)]
    · rw [if_neg hsl]
      refine ⟨_, rfl, ?_, ?_⟩
      · simp only [List.nil_append, List.length_replicate, List.length_nil]
        omega
      · intro i hi
        rw [List.nil_append, getD_replicate_zero,
          List.getD_eq_default _ _ (by omega)]

/-- A single-cell read returns the one-element list holding the stored
value or zero. -/
theorem getValues_one (b : DynamicDataBlock) (a : Int) (h : b.address ≤ a) :
    b.getValues a 1 = some [b.values.getD (a - b.address).toNat 0] := by
  obtain ⟨r, hr, hlen, hcell⟩ := b.getValues_spec a 1 h
  match r, hlen with
  | [x], _ =>
      have h0 := hcell 0 (by omega)
      rw [List.getD_cons_zero] at h0
      rw [hr, h0, Nat.add_zero]

/-- Successful writes: at or above the base, setValues grows the backing
list as needed (zero-filling the gap) and stores the values at the target
cells, leaving every other cell as it read before. -/
theorem setValues_spec (b : DynamicDataBlock) (a : Int) (vs : List Int)
    (h : b.address ≤ a) :
    ∃ b1, b.setValues a vs = some b1 ∧ b1.address = b.address ∧
      b1.values.length = max b.values.length ((a - b.address).toNat + vs.length) ∧
      ∀ i : Nat, b1.values.getD i 0 =
        if (a - b.address).toNat ≤ i ∧ i < (a - b.address).toNat + vs.length
        then vs.getD (i - (a - b.address).toNat) 0
        else b.values.getD i 0 := by
  simp only [setValues]
  rw [if_neg (by omega)]
  set s := (a - b.address).toNat with hs
  set grown := if b.values.length < s + vs.length
    then b.values ++ List.replicate (s + vs.length - b.values.length) 0
    else b.values with hgrown
  have hlen : s + vs.length ≤ grown.length := by
    rw [hgrown, length_grow]; omega
  refine ⟨_, rfl, rfl, ?_, ?_⟩
  · rw [length_overwriteFrom, hgrown, length_grow]
  · intro i
    rw [getD_overwriteFrom _ _ _ hlen, hgrown, getD_grow]

end DynamicDataBlock

/-! ## Lemmas: SimpleModbusContext -/

namespace SimpleModbusContext

theorem get_eq (ctx : SimpleModbusContext) (t : String) (a : Int)
    (ht : validTable t) :
    ctx.get t a = ((ctx.blockFor t).getValues a 1).map (fun r => r.head?) := by
  rcases ht with h | h | h | h <;> subst h <;> rfl

theorem set_eq (ctx : SimpleModbusContext) (t : String) (a : Int) (v : Int)
    (ht : validTable t) :
    ctx.set t a v =
      ((ctx.blockFor t).setValues a [v]).map (fun b => ctx.updFor t b) := by
  rcases ht with h | h | h | h <;> subst h
  · cases hsv : ctx.co.setValues a [v] <;>
      simp [set, fx_map, blockOfFx, updBlockOfFx, updFor, blockFor, hsv]
  · cases hsv : ctx.di.setValues a [v] <;>
      simp [set, fx_map, blockOfFx, updBlockOfFx, updFor, blockFor, hsv]
  · cases hsv : ctx.hr.setValues a [v] <;>
      simp [set, fx_map, blockOfFx, updBlockOfFx, updFor, blockFor, hsv]
  · cases hsv : ctx.ir.setValues a [v] <;>
      simp [set, fx_map, blockOfFx, updBlockOfFx, updFor, blockFor, hsv]

theorem blockFor_updFor (ctx : SimpleModbusContext) (t : String)
    (b : DynamicDataBlock) (ht : validTable t) :
    (ctx.updFor t b).blockFor t = b := by
  rcases ht with h | h | h | h <;> subst h <;> rfl

/-- Reading a single cell through the facade returns the stored value or
zero when past the extent. -/
theorem get_spec (ctx : SimpleModbusContext) (t : String) (a : Int)
    (ht : validTable t) (h : (ctx.blockFor t).address ≤ a) :
    ctx.get t a =
      some (some ((ctx.blockFor t).values.getD
        ((a - (ctx.blockFor t).address).toNat) 0)) := by
  rw [get_eq ctx t a ht]
  obtain ⟨r, hr, hlen, hcell⟩ :=
    (ctx.blockFor t).getValues_spec a 1 h
  rw [hr]
  match r, hlen with
  | [x], _ =>
      have := hcell 0 (by omega)
      simp only [List.getD_cons_zero] at this
      simp [this]

/-- Writing a single cell through the facade succeeds, keeps the block base,
stores the value at the target cell and leaves every other cell as it
was. -/
theorem set_spec (ctx : SimpleModbusContext) (t : String) (a : Int) (v : Int)
    (ht : validTable t) (h : (ctx.blockFor t).address ≤ a) :
    ∃ ctx1, ctx.set t a v = some ctx1 ∧
      (ctx1.blockFor t).address = (ctx.blockFor t).address ∧
      ∀ i : Nat, (ctx1.blockFor t).values.getD i 0 =
        if i = (a - (ctx.blockFor t).address).toNat then v
        else (ctx.blockFor t).values.getD i 0 := by
  rw [set_eq ctx t a v ht]
  obtain ⟨b1, hb, haddr, _, hcell⟩ :=
    (ctx.blockFor t).setValues_spec a [v] h
  rw [hb]
  refine ⟨ctx.updFor t b1, rfl, ?_, ?_⟩
  · rw [blockFor_updFor ctx t b1 ht, haddr]
  · intro i
    rw [blockFor_updFor ctx t b1 ht, hcell i]
    simp only [List.length_cons, List.length_nil]
    by_cases hi : i = (a - (ctx.blockFor t).address).toNat
    · rw [if_pos hi, if_pos (by omega)]
      have : i - (a - (ctx.blockFor t).address).toNat = 0 := by omega
      rw [this, List.getD_cons_zero]
    · rw [if_neg hi, if_neg (by omega)]

/-- Reading one cell after writing a single cell at the same address through
the facade returns the written value. -/
theorem get_set_same (ctx ctx1 : SimpleModbusContext) (t : String)
    (a : Int) (v : Int) (ht : validTable t)
    (h : (ctx.blockFor t).address ≤ a) (hset : ctx.set t a v = some ctx1) :
    ctx1.get t a = some (some v) := by
  obtain ⟨ctx1', hset', haddr, hcell⟩ := set_spec ctx t a v ht h
  rw [hset'] at hset
  cases hset
  rw [get_spec ctx1 t a ht (by omega), haddr, hcell, if_pos rfl]

/-- Writing a single cell leaves every other cell of the same class reading
as before. -/
theorem get_set_other (ctx ctx1 : SimpleModbusContext) (t : String)
    (a a' : Int) (v : Int) (ht : validTable t)
    (h : (ctx.blockFor t).address ≤ a) (h' : (ctx.blockFor t).address ≤ a')
    (hne : a' ≠ a) (hset : ctx.set t a v = some ctx1) :
    ctx1.get t a' = ctx.get t a' := by
  obtain ⟨ctx1', hset', haddr, hcell⟩ := set_spec ctx t a v ht h
  rw [hset'] at hset
  cases hset
  rw [get_spec ctx1 t a' ht (by omega), haddr, hcell,
    get_spec ctx t a' ht h', if_neg (by omega)]

end SimpleModbusContext

/-! ## Lemmas: the word-writing and word-reading loops of main.py -/

open SimpleModbusContext in
/-- After the write loop, the block base is unchanged, every written word
reads back at its address, and every cell below the write window reads as
before. -/
theorem writeWords_spec (ws : List Int) (ctx : SimpleModbusContext)
    (t : String) (a : Int) (ht : validTable t)
    (h : (ctx.blockFor t).address ≤ a) :
    ((writeWords ctx t a ws).blockFor t).address = (ctx.blockFor t).address ∧
    (∀ j : Nat, j < ws.length →
      (writeWords ctx t a ws).get t (a + j) = some (some (ws.getD j 0))) ∧
    (∀ a' : Int, (ctx.blockFor t).address ≤ a' → a' < a →
      (writeWords ctx t a ws).get t a' = ctx.get t a') := by
  induction ws generalizing ctx a with
  | nil =>
      refine ⟨rfl, ?_, ?_⟩
      · intro j hj
        exact absurd hj (by simp)
      · intro a' _ _
        rfl
  | cons w rest ih =>
      obtain ⟨ctx1, hset, haddr1, _⟩ := set_spec ctx t a w ht h
      have hw : writeWords ctx t a (w :: rest) = writeWords ctx1 t (a + 1) rest := by
        simp [writeWords, hset]
      have hbase1 : (ctx1.blockFor t).address ≤ a + 1 := by omega
      obtain ⟨ihaddr, ihget, ihframe⟩ := ih ctx1 (a + 1) hbase1
      refine ⟨?_, ?_, ?_⟩
      · rw [hw, ihaddr, haddr1]
      · intro j hj
        match j with
        | 0 =>
            have hc : a + ((0 : Nat) : Int) = a := by simp
            rw [hw, hc, List.getD_cons_zero,
              ihframe a (by omega) (by omega)]
            exact get_set_same ctx ctx1 t a w ht h hset
        | j + 1 =>
            have hc : a + ((j + 1 : Nat) : Int) = (a + 1) + (j : Int) := by
              push_cast; ring
            rw [hw, hc, List.getD_cons_succ]
            exact ihget j (by simpa using hj)
      · intro a' ha' hlt
        rw [hw, ihframe a' (by omega) (by omega)]
        exact get_set_other ctx ctx1 t a a' w ht h (by omega) (by omega) hset

open SimpleModbusContext in
/-- The read loop collects exactly the cells the single-cell reads
deliver. -/
theorem readWords_eq (n : Nat) (ctx : SimpleModbusContext) (t : String)
    (a : Int) (f : Nat → Int)
    (hget : ∀ j : Nat, j < n → ctx.get t (a + j) = some (some (f j))) :
    readWords ctx t a n = some (List.ofFn fun j : Fin n => f j.val) := by
  induction n generalizing a f with
  | zero => rfl
  | succ n ih =>
      have h0 : ctx.get t a = some (some (f 0)) := by
        have h1 := hget 0 (by omega)
        simpa using h1
      have hrec : readWords ctx t (a + 1) n
          = some (List.ofFn fun j : Fin n => f (j.val + 1)) := by
        refine ih (a + 1) (fun j => f (j + 1)) ?_
        intro j hj
        have h2 := hget (j + 1) (by omega)
        have hc : a + ((j + 1 : Nat) : Int) = a + 1 + (j : Int) := by
          push_cast; ring
        rwa [hc] at h2
      simp only [readWords, h0, hrec, Option.map_some]
      simp [List.ofFn_succ]

open SimpleModbusContext in
/-- Writing a word list then reading the same window back yields the list
unchanged. -/
theorem write_read_words (ws : List Int) (ctx : SimpleModbusContext)
    (t : String) (a : Int) (n : Nat) (ht : validTable t)
    (h : (ctx.blockFor t).address ≤ a) (hn : ws.length = n) :
    readWords (writeWords ctx t a ws) t a n = some ws := by
  subst hn
  obtain ⟨_, hget, _⟩ := writeWords_spec ws ctx t a ht h
  rw [readWords_eq ws.length _ t a (fun j => ws.getD j 0) hget]
  congr 1
  apply List.ext_getElem
  · simp
  · intro i h1 h2
    simp [List.getD_eq_getElem ws 0 (by simpa using h2)]

/-! ## Lemmas: codec round trips -/

theorem combineWords_foldl (ws : List Int) (acc : Nat) :
    ws.foldl (fun acc w => acc * 65536 + w.toNat) acc
      = acc * 65536 ^ ws.length + combineWords ws := by
  induction ws generalizing acc with
  | nil => simp [combineWords]
  | cons w rest ih =>
      simp only [List.foldl_cons, List.length_cons, combineWords]
      rw [ih (acc * 65536 + w.toNat), ih (0 * 65536 + w.toNat)]
      ring

theorem length_splitWords (v n : Nat) : (splitWords v n).length = n := by
  simp [splitWords]

theorem div_pow_mod_mod (v n j : Nat) (hj : j < n) :
    v / 65536 ^ (n - 1 - j) % 65536
      = v % 65536 ^ n / 65536 ^ (n - 1 - j) % 65536 := by
  have hsucc : 65536 ^ (n - 1 - j) * 65536 = 65536 ^ (n - j) := by
    rw [← pow_succ]
    congr 1
    omega
  rw [← Nat.mod_mul_right_div_self, ← Nat.mod_mul_right_div_self, hsucc,
    Nat.mod_mod_of_dvd v (pow_dvd_pow 65536 (by omega : n - j ≤ n))]

theorem splitWords_succ (v n : Nat) :
    splitWords v (n + 1)
      = ((v / 65536 ^ n % 65536 : Nat) : Int) :: splitWords (v % 65536 ^ n) n := by
  apply List.ext_getElem
  · simp [splitWords, length_splitWords]
  · intro i h1 h2
    match i with
    | 0 =>
        simp [splitWords]
    | i + 1 =>
        have h3 : i < n := by
          simp only [splitWords, List.length_ofFn] at h1
          omega
        simp only [splitWords, List.getElem_cons_succ, List.getElem_ofFn]
        congr 1
        have hidx : n + 1 - 1 - (i + 1) = n - 1 - i := by omega
        rw [hidx]
        exact div_pow_mod_mod v n i h3

theorem combine_split (n v : Nat) (hv : v < 65536 ^ n) :
    combineWords (splitWords v n) = v := by
  induction n generalizing v with
  | zero =>
      have : v = 0 := by simpa using hv
      subst this
      rfl
  | succ n ih =>
      rw [splitWords_succ]
      have hrest : combineWords (splitWords (v % 65536 ^ n) n)
          = v % 65536 ^ n :=
        ih _ (Nat.mod_lt _ (Nat.pos_pow_of_pos _ (by norm_num)))
      simp only [combineWords, List.foldl_cons]
      rw [combineWords_foldl, length_splitWords]
      show (0 * 65536 + (Int.ofNat (v / 65536 ^ n % 65536)).toNat) * 65536 ^ n
          + combineWords (splitWords (v % 65536 ^ n) n) = v
      rw [hrest]
      simp only [Nat.zero_mul, Nat.zero_add, Int.toNat_ofNat]
      have hq : v / 65536 ^ n < 65536 := by
        apply Nat.div_lt_of_lt_mul
        calc v < 65536 ^ (n + 1) := hv
          _ = 65536 ^ n * 65536 := pow_succ 65536 n
      rw [Nat.mod_eq_of_lt hq, Nat.mul_comm]
      exact Nat.div_add_mod v (65536 ^ n)

theorem length_from_uint32 (v : Int) (inv : Bool) :
    (from_uint32 v inv).length = 2 := by
  cases inv <;> simp [from_uint32, length_splitWords]

theorem length_from_int32 (v : Int) (inv : Bool) :
    (from_int32 v inv).length = 2 := length_from_uint32 _ _

theorem length_from_float32 (b : Nat) (inv : Bool) :
    (from_float32 b inv).length = 2 := length_from_uint32 _ _

theorem length_from_ulong64 (v : Int) (inv : Bool) :
    (from_ulong64 v inv).length = 4 := by
  cases inv <;> simp [from_ulong64, length_splitWords]

theorem length_from_long64 (v : Int) (inv : Bool) :
    (from_long64 v inv).length = 4 := length_from_ulong64 _ _

theorem length_from_double64 (b : Nat) (inv : Bool) :
    (from_double64 b inv).length = 4 := length_from_ulong64 _ _

theorem to_from_uint32 (v : Int) (inv : Bool) (h0 : 0 ≤ v)
    (h1 : v < 4294967296) : to_uint32 (from_uint32 v inv) 0 inv = v := by
  have hlt : v.toNat < 65536 ^ 2 := by omega
  have hlen : (splitWords v.toNat 2).length = 2 := length_splitWords _ _
  cases inv with
  | false =>
      simp only [from_uint32, to_uint32, Bool.false_eq_true, if_false,
        List.drop_zero]
      rw [List.take_of_length_le (by simp [hlen]), List.reverse_reverse,
        combine_split 2 _ hlt]
      omega
  | true =>
      simp only [from_uint32, to_uint32, if_true, List.drop_zero]
      rw [List.take_of_length_le (by omega), combine_split 2 _ hlt]
      omega

theorem to_from_int32 (v : Int) (inv : Bool) (h0 : -2147483648 ≤ v)
    (h1 : v < 2147483648) : to_int32 (from_int32 v inv) 0 inv = v := by
  have hu := to_from_uint32 (v % 4294967296) inv
    (by omega) (by omega)
  simp only [from_int32, to_int32, hu]
  split <;> omega

theorem to_from_float32 (b : Nat) (inv : Bool) (h : b < 4294967296) :
    to_float32 (from_float32 b inv) 0 inv = b := by
  have hu := to_from_uint32 ((b : Nat) : Int) inv (by omega) (by omega)
  simp only [from_float32, to_float32, hu]
  omega

theorem to_from_ulong64 (v : Int) (inv : Bool) (h0 : 0 ≤ v)
    (h1 : v < 18446744073709551616) :
    to_ulong64 (from_ulong64 v inv) 0 inv = v := by
  have hlt : v.toNat < 65536 ^ 4 := by omega
  have hlen : (splitWords v.toNat 4).length = 4 := length_splitWords _ _
  cases inv with
  | false =>
      simp only [from_ulong64, to_ulong64, Bool.false_eq_true, if_false,
        List.drop_zero]
      rw [List.take_of_length_le (by simp [hlen]), List.reverse_reverse,
        combine_split 4 _ hlt]
      omega
  | true =>
      simp only [from_ulong64, to_ulong64, if_true, List.drop_zero]
      rw [List.take_of_length_le (by omega), combine_split 4 _ hlt]
      omega

theorem to_from_long64 (v : Int) (inv : Bool)
    (h0 : -9223372036854775808 ≤ v) (h1 : v < 9223372036854775808) :
    to_long64 (from_long64 v inv) 0 inv = v := by
  have hu := to_from_ulong64 (v % 18446744073709551616) inv
    (by omega) (by omega)
  simp only [from_long64, to_long64, hu]
  split <;> omega

theorem to_from_double64 (b : Nat) (inv : Bool)
    (h : b < 18446744073709551616) :
    to_double64 (from_double64 b inv) 0 inv = b := by
  have hu := to_from_ulong64 ((b : Nat) : Int) inv (by omega) (by omega)
  simp only [from_double64, to_double64, hu]
  omega

theorem length_from_string_pair (x y : Nat) (inv : Bool) :
    (from_string [x, y] inv).length = 1 := by
  cases inv <;> rfl

theorem to_from_string_pair (a b : Nat) (inv : Bool) (ha : a < 256)
    (hb : b < 256) : to_string (from_string [a, b] inv) inv = [a, b] := by
  cases inv <;>
    simp only [from_string, to_string, List.map_cons, List.map_nil,
      List.flatten, List.append_nil, Bool.false_eq_true, if_false, if_true,
      Int.toNat_ofNat, List.cons.injEq, and_true] <;>
    refine ⟨by omega, by omega⟩

/-! ## Claim C2: reads always succeed at or above the base -/

open DynamicDataBlock in
/-- C2: for every store and every address at or above its base and every
count, a read succeeds and returns one value per cell: the stored value
where the backing list holds the cell and zero otherwise.  A read never
fails solely because the requested range extends past the currently-written
extent. -/
theorem C2_read_total (b : DynamicDataBlock) (a : Int) (count : Nat)
    (h : b.address ≤ a) :
    b.getValues a count = some ((b.getValues a count).getD []) ∧
    ((b.getValues a count).getD []).length = count ∧
    ∀ i : Nat, i < count →
      ((b.getValues a count).getD []).getD i 0
        = b.values.getD ((a - b.address).toNat + i) 0 := by
  obtain ⟨r, hr, hlen, hcell⟩ := b.getValues_spec a count h
  rw [hr]
  exact ⟨rfl, hlen, hcell⟩

/-- C2 witness: a never-written store with base 0 satisfies the read
contract at address 0 and count 5, and the read concretely returns five
zeros. -/
theorem C2_read_total_witness :
    ((⟨0, []⟩ : DynamicDataBlock).address ≤ 0 ∧
      ((⟨0, []⟩ : DynamicDataBlock).getValues 0 5
          = some (((⟨0, []⟩ : DynamicDataBlock).getValues 0 5).getD []) ∧
        (((⟨0, []⟩ : DynamicDataBlock).getValues 0 5).getD []).length = 5 ∧
        ∀ i : Nat, i < 5 →
          (((⟨0, []⟩ : DynamicDataBlock).getValues 0 5).getD []).getD i 0
            = (⟨0, []⟩ : DynamicDataBlock).values.getD
                ((0 - (⟨0, []⟩ : DynamicDataBlock).address).toNat + i) 0)) ∧
    (⟨0, []⟩ : DynamicDataBlock).getValues 0 5 = some [0, 0, 0, 0, 0] :=
  ⟨⟨by decide, C2_read_total ⟨0, []⟩ 0 5 (by decide)⟩, by decide⟩

/-! ## Claim C3: writes grow the store and are immediately visible -/

open DynamicDataBlock in
/-- C3: for every store and every address at or above the base, a write
succeeds, grows the backing list to cover the written range (zero-filling
the gap between old extent and target), stores the given values at the
target cells leaving every other cell reading as before, and each written
value is visible to an immediately following read of its cell. -/
theorem C3_write_grows (b : DynamicDataBlock) (a : Int) (vs : List Int)
    (h : b.address ≤ a) :
    b.setValues a vs = some ((b.setValues a vs).getD b) ∧
    ((b.setValues a vs).getD b).address = b.address ∧
    ((b.setValues a vs).getD b).values.length
      = max b.values.length ((a - b.address).toNat + vs.length) ∧
    (∀ i : Nat, ((b.setValues a vs).getD b).values.getD i 0 =
      if (a - b.address).toNat ≤ i ∧ i < (a - b.address).toNat + vs.length
      then vs.getD (i - (a - b.address).toNat) 0
      else b.values.getD i 0) ∧
    (∀ j : Nat, j < vs.length →
      ((b.setValues a vs).getD b).getValues (a + j) 1
        = some [vs.getD j 0]) := by
  obtain ⟨b1, hb, haddr, hlen, hcell⟩ := b.setValues_spec a vs h
  rw [hb]
  simp only [Option.getD_some]
  refine ⟨trivial, haddr, hlen, hcell, ?_⟩
  intro j hj
  rw [getValues_one b1 (a + j) (by omega)]
  have hidx : (a + (j : Int) - b1.address).toNat
      = (a - b.address).toNat + j := by omega
  rw [hidx, hcell]
  rw [if_pos (by omega)]
  have hj2 : (a - b.address).toNat + j - (a - b.address).toNat = j := by
    omega
  rw [hj2]

/-- C3 witness: writing [7, 8, 9] at address 100 into an empty base-0 store
satisfies the write contract, and a subsequent read of 0..102 concretely
returns one hundred zeros followed by 7, 8, 9. -/
theorem C3_write_grows_witness :
    ((⟨0, []⟩ : DynamicDataBlock).address ≤ 100 ∧
      (⟨0, []⟩ : DynamicDataBlock).setValues 100 [7, 8, 9]
        = some (((⟨0, []⟩ : DynamicDataBlock).setValues 100 [7, 8, 9]).getD
            ⟨0, []⟩)) ∧
    ((((⟨0, []⟩ : DynamicDataBlock).setValues 100 [7, 8, 9]).getD
        ⟨0, []⟩).getValues 0 103
      = some (List.replicate 100 0 ++ [7, 8, 9])) :=
  ⟨⟨by decide, (C3_write_grows ⟨0, []⟩ 100 [7, 8, 9] (by decide)).1⟩,
    by decide⟩

/-! ## Claim C4: accesses below the base are rejected -/

open DynamicDataBlock in
/-- C4: for every store and every address strictly below the base, the read
raises, the write raises (producing no updated store, so the contents are
unchanged by the failed access), the state-passing read hands back no
state, and validate refuses the access. -/
theorem C4_below_base_rejected (b : DynamicDataBlock) (a : Int)
    (count : Nat) (vs : List Int) (h : a < b.address) :
    b.getValues a count = none ∧ b.setValues a vs = none ∧
      b.getValuesSt a count = none ∧ b.validate a count = false := by
  refine ⟨b.getValues_below_base a count h,
    b.setValues_below_base a vs h, ?_, ?_⟩
  · simp [DynamicDataBlock.getValuesSt, b.getValues_below_base a count h]
  · simp only [DynamicDataBlock.validate, Bool.not_eq_false']
    exact decide_eq_true h

/-- C4 witness: reading or writing address -1 of a base-0 store fails. -/
theorem C4_below_base_rejected_witness :
    ((-1 : Int) < (⟨0, []⟩ : DynamicDataBlock).address) ∧
    ((⟨0, []⟩ : DynamicDataBlock).getValues (-1) 1 = none ∧
      (⟨0, []⟩ : DynamicDataBlock).setValues (-1) [5] = none ∧
      (⟨0, []⟩ : DynamicDataBlock).getValuesSt (-1) 1 = none ∧
      (⟨0, []⟩ : DynamicDataBlock).validate (-1) 1 = false) :=
  ⟨by decide, C4_below_base_rejected ⟨0, []⟩ (-1) 1 [5] (by decide)⟩

/-! ## Claim C5: unknown register classes are rejected -/

/-- C5: for every table tag outside the four recognized classes, get raises
(it never silently returns a default value) and set raises (it never
silently no-ops), for every address and value. -/
theorem C5_unknown_class (ctx : SimpleModbusContext) (t : String) (a : Int)
    (v : Int) (h : ¬ validTable t) :
    ctx.get t a = none ∧ ctx.set t a v = none := by
  have hfx : SimpleModbusContext.fx_map t = none := by
    simp only [validTable, not_or] at h
    obtain ⟨h1, h2, h3, h4⟩ := h
    simp only [SimpleModbusContext.fx_map, if_neg h1, if_neg h2,
      if_neg h3, if_neg h4]
  constructor <;>
    simp [SimpleModbusContext.get, SimpleModbusContext.set, hfx]

/-- C5 witness: the tag xx is not a recognized class, and both accessors
fail on it. -/
theorem C5_unknown_class_witness :
    (¬ validTable "xx") ∧
    (ctxEmpty.get "xx" 0 = none ∧ ctxEmpty.set "xx" 0 1 = none) :=
  ⟨by simp [validTable],
    C5_unknown_class ctxEmpty "xx" 0 1 (by simp [validTable])⟩

/-! ## Claim C10: reads are side-effect free -/

/-- C10: whenever the state-passing read succeeds it hands back the very
store it was given: same base address, backing list identical cell for cell
and in length, and its result is exactly the plain read result; only
setValues ever produces a changed store. -/
theorem C10_read_pure (b : DynamicDataBlock) (a : Int) (count : Nat)
    (r : List Int) (b1 : DynamicDataBlock)
    (h : b.getValuesSt a count = some (r, b1)) :
    b1 = b ∧ b1.address = b.address ∧ b1.values = b.values ∧
      b1.values.length = b.values.length ∧
      b.getValues a count = some r := by
  simp only [DynamicDataBlock.getValuesSt] at h
  rcases Option.map_eq_some'.mp h with ⟨r0, hr0, heq⟩
  injection heq with h1 h2
  subst h1
  subst h2
  exact ⟨rfl, rfl, rfl, rfl, hr0⟩

/-- C10 witness: the state-passing read of cells 0..1 of a one-cell store
succeeds with result [5, 0] and hands back the store unchanged. -/
theorem C10_read_pure_witness :
    ((⟨0, [5]⟩ : DynamicDataBlock).getValuesSt 0 2
        = some ([5, 0], (⟨0, [5]⟩ : DynamicDataBlock))) ∧
    ((⟨0, [5]⟩ : DynamicDataBlock) = (⟨0, [5]⟩ : DynamicDataBlock) ∧
      (⟨0, [5]⟩ : DynamicDataBlock).address
        = (⟨0, [5]⟩ : DynamicDataBlock).address ∧
      (⟨0, [5]⟩ : DynamicDataBlock).values
        = (⟨0, [5]⟩ : DynamicDataBlock).values ∧
      (⟨0, [5]⟩ : DynamicDataBlock).values.length
        = (⟨0, [5]⟩ : DynamicDataBlock).values.length ∧
      (⟨0, [5]⟩ : DynamicDataBlock).getValues 0 2 = some [5, 0]) :=
  ⟨by decide, C10_read_pure ⟨0, [5]⟩ 0 2 [5, 0] ⟨0, [5]⟩ (by decide)⟩

/-! ## Claim C6: the overlap check undercounts string registers -/

/-- C6: at the failing input the overlap check misses a genuine overlap: an
hr string register occupying two words at addresses 0 and 1 is configured;
adding an hr uint16 at address 1 lies inside that span by the spec size
table (sizeSpec), yet overlapsExisting sees no overlap because
get_register_size falls back to 1 for string, and add_register appends the
overlapping register instead of rejecting it. -/
theorem C6_string_overlap_missed :
    overlapsExisting [⟨0, "hr", "string", "big", 2⟩]
        ⟨1, "hr", "uint16", "big", 0⟩ = false ∧
    inAddrRange 1 0 (sizeSpec "string" 2) = true ∧
    get_register_size "string" = 1 ∧
    add_register [⟨0, "hr", "string", "big", 2⟩]
        ⟨1, "hr", "uint16", "big", 0⟩
      = [⟨0, "hr", "string", "big", 2⟩, ⟨1, "hr", "uint16", "big", 0⟩] := by
  decide

/-! ## Claim C7: stop is idempotent -/

/-- C7: stop is idempotent and safe: any stop leaves the lifecycle stopped;
stopping again, or stopping a runtime whose start was never called,
completes and emits the stopped status; and a start issued after a stop is
accepted: it takes the real start path, turning the lifecycle on and
emitting the starting status, not the already-running early return. -/
theorem C7_stop_idempotent (rt : SlaveRuntime) (w1 w2 : Bool) :
    ((rt.stop w1).1.running = false) ∧
    (((rt.stop w1).1.stop w2).1.running = false) ∧
    (((rt.stop w1).1.stop w2).1.status
      = rt.status ++ ["stopped", "stopped"]) ∧
    ((SlaveRuntime.init.stop w1).1.running = false ∧
      (SlaveRuntime.init.stop w1).1.status = ["stopped"]) ∧
    (((rt.stop w1).1.start).running = true) ∧
    (((rt.stop w1).1.start).status = rt.status ++ ["stopped", "starting"]) := by
  simp [SlaveRuntime.stop, SlaveRuntime.start, SlaveRuntime.init]

/-! ## Claim C8: stop completes despite an uncooperative worker -/

/-- C8: when the worker does not exit within the bounded waits, stop still
runs to completion rather than hanging: its action trace reports the
shutdown-timeout warning (and the thread-alive warning when a worker thread
exists), then performs the settle sleep, and emits the stopped status last;
the lifecycle ends stopped with the stopped status reported. -/
theorem C8_stop_timeout (rt : SlaveRuntime) :
    (rt.stop false).2
      = [StopAction.setRunningFalse, StopAction.setStopEvent,
          StopAction.serverStopCall, StopAction.warnShutdownTimeout]
        ++ (if rt.threadAlive
            then [StopAction.joinWait, StopAction.warnThreadAlive] else [])
        ++ [StopAction.settleSleep, StopAction.emitStatus "stopped"] ∧
    (rt.stop false).1.running = false ∧
    (rt.stop false).1.status = rt.status ++ ["stopped"] := by
  refine ⟨?_, rfl, rfl⟩
  simp [SlaveRuntime.stop]

/-! ## Claim C9: no stopping phase is ever reported -/

/-- C9 counterexample: stopping a listening runtime never reports the
claimed stopping phase on the status channel; the emitted statuses after
the stop contain no stopping entry. -/
theorem C9_no_stopping_emitted :
    "stopping" ∉
      ((⟨true, false, false, true,
          ["starting", "Listening TCP 0.0.0.0:5020"]⟩
        : SlaveRuntime).stop true).1.status := by
  decide

/-- C9 (amended): stop reports exactly one phase on the status channel, the
stopped phase; the status vocabulary of the lifecycle has no stopping
phase, so a stop issued from the listening state reports stopped directly
without a stopping notification in between. -/
theorem C9_stop_emits_only_stopped (rt : SlaveRuntime) (w : Bool) :
    (rt.stop w).1.status = rt.status ++ ["stopped"] := rfl

/-! ## Claim C1: the typed round trip -/

/-- C1 counterexample: the claimed round trip fails for the bool data type:
write_register_value has no bool branch, so the write stores nothing, and
read_register_value has no bool decode branch, so the read returns None
rather than the written value 1. -/
theorem C1_bool_roundtrip_fails :
    read_register_value
        (write_register_value ctxEmpty ⟨0, "co", "bool", "big", 0⟩
          (RegValue.int 1))
        ⟨0, "co", "bool", "big", 0⟩
      ≠ some (RegValue.int 1) := by
  decide

/-- C1 (amended): writing a representable value through
write_register_value and reading it back through read_register_value
returns the value, for the seven numeric data types in both word orders
within the documented ranges (float32 and double64 identified with their
finite IEEE bit patterns), and for string exactly in the one-word window
the read path actually reads (two characters, stringLength 1); bool is
excluded because neither path has a bool branch, and longer strings are
excluded because the read path reads get_register_size words, which is one
for a string. -/
theorem C1_roundtrip (ctx : SimpleModbusContext) (reg : Register)
    (v : RegValue) (ht : validTable reg.table)
    (ha : (ctx.blockFor reg.table).address ≤ reg.address)
    (hrep : Representable reg.data_type v) :
    read_register_value (write_register_value ctx reg v) reg = some v := by
  obtain ⟨a, t, dt, e, sl⟩ := reg
  simp only [Representable] at hrep
  simp only at ht ha
  rcases hrep with
    ⟨hdt, i, hv, h0, h1⟩ | ⟨hdt, i, hv, h0, h1⟩ | ⟨hdt, i, hv, h0, h1⟩ |
    ⟨hdt, bb, hv, h1⟩ | ⟨hdt, i, hv, h0, h1⟩ | ⟨hdt, i, hv, h0, h1⟩ |
    ⟨hdt, bb, hv, h1⟩ | ⟨hdt, x, y, hv, hx, hy⟩ <;>
    (subst hdt; subst hv)
  · -- uint16
    simp only [write_register_value, read_register_value, RegValue.asInt?,
      String.reduceEq, reduceIte]
    obtain ⟨ctx1, hset, _, _⟩ := SimpleModbusContext.set_spec ctx t a i ht ha
    rw [hset]
    simp only [Option.getD_some]
    rw [SimpleModbusContext.get_set_same ctx ctx1 t a i ht ha hset]
  · -- int32
    simp only [write_register_value, read_register_value, RegValue.asInt?,
      get_register_size, String.reduceEq, reduceIte]
    rw [write_read_words _ ctx t a 2 ht ha (length_from_int32 i _)]
    simp only [to_from_int32 i _ h0 h1]
  · -- uint32
    simp only [write_register_value, read_register_value, RegValue.asInt?,
      get_register_size, String.reduceEq, reduceIte]
    rw [write_read_words _ ctx t a 2 ht ha (length_from_uint32 i _)]
    simp only [to_from_uint32 i _ h0 h1]
  · -- float32
    simp only [write_register_value, read_register_value, RegValue.asInt?,
      get_register_size, String.reduceEq, reduceIte]
    rw [write_read_words _ ctx t a 2 ht ha (length_from_float32 bb _)]
    simp only [to_from_float32 bb _ h1]
  · -- int64
    simp only [write_register_value, read_register_value, RegValue.asInt?,
      get_register_size, String.reduceEq, reduceIte]
    rw [write_read_words _ ctx t a 4 ht ha (length_from_long64 i _)]
    simp only [to_from_long64 i _ h0 h1]
  · -- uint64
    simp only [write_register_value, read_register_value, RegValue.asInt?,
      get_register_size, String.reduceEq, reduceIte]
    rw [write_read_words _ ctx t a 4 ht ha (length_from_ulong64 i _)]
    simp only [to_from_ulong64 i _ h0 h1]
  · -- double64
    simp only [write_register_value, read_register_value, RegValue.asInt?,
      get_register_size, String.reduceEq, reduceIte]
    rw [write_read_words _ ctx t a 4 ht ha (length_from_double64 bb _)]
    simp only [to_from_double64 bb _ h1]
  · -- string of one word
    simp only [write_register_value, read_register_value, RegValue.asInt?,
      get_register_size, String.reduceEq, reduceIte]
    rw [write_read_words _ ctx t a 1 ht ha (length_from_string_pair x y _)]
    simp only [to_from_string_pair x y _ hx hy]

/-- C1 witness: a little-endian int32 register at holding address 5 of an
empty context round-trips the value -5. -/
theorem C1_roundtrip_witness :
    (validTable "hr" ∧
      (ctxEmpty.blockFor "hr").address ≤ (5 : Int) ∧
      Representable "int32" (RegValue.int (-5))) ∧
    read_register_value
        (write_register_value ctxEmpty ⟨5, "hr", "int32", "little", 0⟩
          (RegValue.int (-5)))
        ⟨5, "hr", "int32", "little", 0⟩
      = some (RegValue.int (-5)) :=
  ⟨⟨by simp [validTable], by decide,
      Or.inr (Or.inl ⟨rfl, -5, rfl, by decide, by decide⟩)⟩,
    C1_roundtrip ctxEmpty ⟨5, "hr", "int32", "little", 0⟩
      (RegValue.int (-5)) (by simp [validTable]) (by decide)
      (Or.inr (Or.inl ⟨rfl, -5, rfl, by decide, by decide⟩))⟩

end ModbusSim